import Mathlib

/-!
Shallow embedding of `src/wasm/src/lib.rs` (omniswap-sdk wasm core).

Bytes are modelled as `List Nat` (each element intended `< 256`), fallible
operations as `Except String` carrying the source's literal error strings.
External cryptographic library primitives (BLAKE2b/BLAKE2s keyed hashing,
SHA-256, RIPEMD-160, jubjub point decoding/arithmetic, secp256k1 ECDSA,
bech32 string rendering) are library code outside this repository; they are
abstracted as fields of `CryptoPrims`, with the facts the code relies on
(output lengths) taken as explicit hypotheses.  Everything the repository
itself computes — slicing, concatenation, length guards, tags, masking,
little-endian encodings, base58 — is embedded concretely.
-/

/-- Abstract interface to the external cryptographic libraries used by
`lib.rs`.  `blake2b len pers data` stands for
`blake2b_simd::Params::new().hash_length(len).personal(pers)` applied to
`data` (likewise `blake2s` for `blake2s_simd`); `pointFromBytes`,
`pointMulScalar`, `pointToBytes`, `generator` stand for the jubjub group
operations; `sha256` / `ripemd160` for the digest crates;
`parseSigningKey` / `ecdsaSign` for `k256::ecdsa`; `bech32zs` for
`bech32::encode` with the fixed valid hrp "zs" (which never fails on a
valid hrp). -/
structure CryptoPrims (Point : Type) where
  blake2b : Nat → List Nat → List Nat → List Nat
  blake2s : Nat → List Nat → List Nat → List Nat
  sha256 : List Nat → List Nat
  ripemd160 : List Nat → List Nat
  pointFromBytes : List Nat → Option Point
  pointMulScalar : Point → Nat → Point
  pointToBytes : Point → List Nat
  generator : Point
  parseSigningKey : List Nat → Except String (List Nat)
  ecdsaSign : List Nat → List Nat → List Nat
  bech32zs : List Nat → String

/-- ASCII bytes of a personalization string. -/
def persOf (s : String) : List Nat := s.toList.map Char.toNat

/-- Personalization `b"Zcash_ExpandSeed"` used by `prf_expand`. -/
def persExpandSeed : List Nat := persOf "Zcash_ExpandSeed"

/-- Personalization `b"Zcashivk"` used by `crh_ivk`. -/
def persIvk : List Nat := persOf "Zcashivk"

/-- Personalization `b"Zcash_gd"` used by `diversifier_to_point`. -/
def persGd : List Nat := persOf "Zcash_gd"

/-- Personalization `b"Zcash_PH"` passed to `pedersen_hash` by
`compute_note_commitment`. -/
def persPH : List Nat := persOf "Zcash_PH"

/-- Personalization `b"Zcash_nf"` used by `compute_nullifier`. -/
def persNf : List Nat := persOf "Zcash_nf"

/-- Little-endian value of a byte list (`Fr::from_bytes` interpretation). -/
def leToNat : List Nat → Nat
  | [] => 0
  | b :: bs => b + 256 * leToNat bs

/-- The `k`-byte little-endian encoding of `n` (low byte first). -/
def natToLe : Nat → Nat → List Nat
  | 0, _ => []
  | k + 1, n => n % 256 :: natToLe k (n / 256)

/-- `u32::to_le_bytes`. -/
def u32le (n : Nat) : List Nat := natToLe 4 n

/-- `u64::to_le_bytes`. -/
def u64le (n : Nat) : List Nat := natToLe 8 n

/-- `dst[start..start+src.len()].copy_from_slice(src)` on byte lists. -/
def setSlice (dst : List Nat) (start : Nat) (src : List Nat) : List Nat :=
  dst.take start ++ src ++ dst.drop (start + src.length)

/-- Order of the jubjub scalar field `Fr` (the prime-order-subgroup order
`r`); `Fr::from_bytes` accepts exactly the little-endian encodings of
values strictly below it. -/
def jubjubR : Nat :=
  0x0e7db4ea6533afa906673b0101343b00a6682093ccc81082d0970e5ed6f72cb7

/-- `bytes_to_scalar` (lib.rs:237-243): copies the first 32 bytes and runs
`Fr::from_bytes`, which accepts a 32-byte little-endian encoding iff the
value is strictly below the group order. -/
def bytes_to_scalar (bytes : List Nat) : Except String Nat :=
  let v := leToNat (bytes.take 32)
  if v < jubjubR then Except.ok v else Except.error "Invalid scalar"

/-- `prf_expand` (lib.rs:222-235): 64-byte BLAKE2b keyed with
personalization `Zcash_ExpandSeed` over `key || t`, truncated to its first
32 bytes. -/
def prf_expand {P : Type} (C : CryptoPrims P) (key t : List Nat) : List Nat :=
  (C.blake2b 64 persExpandSeed (key ++ t)).take 32

/-- `generate_spending_key` (lib.rs:27-43). -/
def generate_spending_key {P : Type} (C : CryptoPrims P) (seed : List Nat) :
    Except String (List Nat) :=
  if seed.length < 32 then
    Except.error "Seed must be at least 32 bytes"
  else
    let ask := prf_expand C (seed.take 32) [0x00]
    let nsk := prf_expand C (seed.take 32) [0x01]
    let ovk := prf_expand C (seed.take 32) [0x02]
    Except.ok (ask ++ nsk ++ ovk)

/-- `crh_ivk` (lib.rs:245-261): 32-byte BLAKE2s of `ak || nk` with
personalization `Zcashivk`, then `output[31] &= 0x07`. -/
def crh_ivk {P : Type} (C : CryptoPrims P) (ak nk : List Nat) : List Nat :=
  let output := C.blake2s 32 persIvk (ak ++ nk)
  output.set 31 (output.getD 31 0 &&& 0x07)

/-- `derive_viewing_key` (lib.rs:47-74). -/
def derive_viewing_key {P : Type} (C : CryptoPrims P) (spending_key : List Nat) :
    Except String (List Nat) :=
  if spending_key.length < 96 then
    Except.error "Invalid spending key length"
  else
    let ask := spending_key.take 32
    let nsk := (spending_key.drop 32).take 32
    let ovk := (spending_key.drop 64).take 32
    (bytes_to_scalar ask).bind fun ask_scalar =>
      let ak := C.pointToBytes (C.pointMulScalar C.generator ask_scalar)
      (bytes_to_scalar nsk).bind fun nsk_scalar =>
        let nk := C.pointToBytes (C.pointMulScalar C.generator nsk_scalar)
        let ivk := crh_ivk C ak nk
        Except.ok (ak ++ nk ++ ivk ++ ovk)

/-- `find_valid_diversifier` (lib.rs:263-267): returns the diversifier
as-is (the source's comment notes a full implementation would search). -/
def find_valid_diversifier (d : List Nat) : Except String (List Nat) :=
  Except.ok d

/-- `diversifier_to_point` (lib.rs:269-282): BLAKE2s hash of `d` with
personalization `Zcash_gd`, interpreted as a compressed subgroup point. -/
def diversifier_to_point {P : Type} (C : CryptoPrims P) (d : List Nat) :
    Except String P :=
  match C.pointFromBytes (C.blake2s 32 persGd d) with
  | some p => Except.ok p
  | none => Except.error "Invalid diversifier"

/-- `encode_payment_address` (lib.rs:300-311): maps each raw byte to
`b % 32` and bech32-encodes under hrp "zs"; `bech32::encode` cannot fail
on the fixed valid hrp, so the embedding is total. -/
def encode_payment_address {P : Type} (C : CryptoPrims P) (raw : List Nat) :
    Except String String :=
  Except.ok (C.bech32zs (raw.map (· % 32)))

/-- The diversifier `derive_payment_address` builds at lib.rs:86-87:
`[0u8; 11]` with the 4 little-endian index bytes copied into `[0..4]`. -/
def diversifierFromIndex (i : Nat) : List Nat :=
  setSlice (List.replicate 11 0) 0 (u32le i)

/-- `derive_payment_address` (lib.rs:78-104). -/
def derive_payment_address {P : Type} (C : CryptoPrims P)
    (viewing_key : List Nat) (diversifier_index : Nat) :
    Except String String :=
  if viewing_key.length < 128 then
    Except.error "Invalid viewing key length"
  else
    let ivk := (viewing_key.drop 64).take 32
    (find_valid_diversifier (diversifierFromIndex diversifier_index)).bind
      fun diversifier =>
        (diversifier_to_point C diversifier).bind fun g_d =>
          (bytes_to_scalar ivk).bind fun ivk_scalar =>
            let pk_d := C.pointToBytes (C.pointMulScalar g_d ivk_scalar)
            encode_payment_address C (diversifier ++ pk_d)

/-- Bitcoin base58 alphabet used by the `bs58` crate. -/
def base58Alphabet : List Char :=
  "123456789ABCDEFGHJKLMNPQRSTUVWXYZabcdefghijkmnopqrstuvwxyz".toList

/-- Big-endian value of a byte list. -/
def beToNat (bs : List Nat) : Nat := bs.foldl (fun acc b => acc * 256 + b) 0

/-- Base-58 digits of `n`, most significant first (empty for 0). -/
def natToBase58 (n : Nat) : List Nat :=
  if h : n = 0 then []
  else natToBase58 (n / 58) ++ [n % 58]
decreasing_by
  exact Nat.div_lt_self (Nat.pos_of_ne_zero h) (by norm_num)

/-- Number of leading zero bytes. -/
def leadingZeros : List Nat → Nat
  | [] => 0
  | b :: bs => if b = 0 then leadingZeros bs + 1 else 0

/-- `bs58::encode(payload).into_string()`: one '1' per leading zero byte,
then the big-endian value in base-58 digits over the Bitcoin alphabet. -/
def base58Encode (payload : List Nat) : String :=
  String.mk ((List.replicate (leadingZeros payload) '1') ++
    (natToBase58 (beToNat payload)).map (fun d => base58Alphabet.getD d '?'))

/-- `generate_transparent_address` (lib.rs:108-120): SHA-256 then
RIPEMD-160, prefix bytes `0x1C 0xB8`, base58 (no checksum). -/
def generate_transparent_address {P : Type} (C : CryptoPrims P)
    (public_key : List Nat) : Except String String :=
  let sha_hash := C.sha256 public_key
  let ripemd_hash := C.ripemd160 sha_hash
  let payload := 0x1C :: 0xB8 :: ripemd_hash
  Except.ok (base58Encode payload)

/-- `pedersen_hash` (lib.rs:284-298): BLAKE2s with the given
personalization, hash length 32, over `input`. -/
def pedersen_hash {P : Type} (C : CryptoPrims P)
    (personalization input : List Nat) : List Nat :=
  C.blake2s 32 personalization input

/-- `compute_note_commitment` (lib.rs:124-143). -/
def compute_note_commitment {P : Type} (C : CryptoPrims P)
    (diversifier pk_d : List Nat) (value : Nat) (rcm : List Nat) :
    Except String (List Nat) :=
  if diversifier.length ≠ 11 ∨ pk_d.length ≠ 32 ∨ rcm.length ≠ 32 then
    Except.error "Invalid input lengths"
  else
    let input := diversifier ++ pk_d ++ u64le value ++ rcm
    Except.ok (pedersen_hash C persPH input)

/-- `compute_nullifier` (lib.rs:147-167). -/
def compute_nullifier {P : Type} (C : CryptoPrims P)
    (note_commitment nk : List Nat) (position : Nat) :
    Except String (List Nat) :=
  if note_commitment.length ≠ 32 ∨ nk.length ≠ 32 then
    Except.error "Invalid input lengths"
  else
    Except.ok (C.blake2b 32 persNf (nk ++ note_commitment ++ u64le position))

/-- `sign_transparent` (lib.rs:171-188): parse the key, hash the message
with SHA-256 unless it is exactly 32 bytes, sign the digest. -/
def sign_transparent {P : Type} (C : CryptoPrims P)
    (message private_key : List Nat) : Except String (List Nat) :=
  (C.parseSigningKey private_key).bind fun signing_key =>
    let msg_hash := if message.length = 32 then message else C.sha256 message
    Except.ok (C.ecdsaSign signing_key msg_hash)

/-- `blake2b_hash` (lib.rs:192-203): zero-pads or truncates the
personalization to 16 bytes, then 32-byte BLAKE2b. -/
def blake2b_hash {P : Type} (C : CryptoPrims P)
    (data personalization : List Nat) : List Nat :=
  let personal := setSlice (List.replicate 16 0) 0 (personalization.take 16)
  C.blake2b 32 personal data

/-- The output-length facts about the external primitives that `lib.rs`
relies on (each library digest returns exactly the requested length, a
compressed jubjub point is 32 bytes, RIPEMD-160 is 20 bytes, SHA-256 is
32 bytes). -/
def GoodPrims {P : Type} (C : CryptoPrims P) : Prop :=
  (∀ len pers data, (C.blake2b len pers data).length = len) ∧
  (∀ len pers data, (C.blake2s len pers data).length = len) ∧
  (∀ data, (C.sha256 data).length = 32) ∧
  (∀ data, (C.ripemd160 data).length = 20) ∧
  (∀ p, (C.pointToBytes p).length = 32)

/-- A concrete instantiation of the abstract primitives, used to evaluate
the embedded operations on explicit inputs. -/
def dummyPrims : CryptoPrims Unit where
  blake2b := fun len _ _ => List.replicate len 0
  blake2s := fun len _ _ => List.replicate len 0
  sha256 := fun _ => List.replicate 32 0
  ripemd160 := fun _ => List.replicate 20 0
  pointFromBytes := fun _ => some ()
  pointMulScalar := fun _ _ => ()
  pointToBytes := fun _ => List.replicate 32 0
  generator := ()
  parseSigningKey := fun k => Except.ok k
  ecdsaSign := fun _ _ => List.replicate 64 0
  bech32zs := fun _ => "zs1dummy"

theorem dummyPrims_good : GoodPrims dummyPrims := by
  refine ⟨?_, ?_, ?_, ?_, ?_⟩ <;> intros <;> simp [dummyPrims]

/-- Length of `natToLe`. -/
theorem natToLe_length (k n : Nat) : (natToLe k n).length = k := by
  induction k generalizing n with
  | zero => rfl
  | succ k ih => simp [natToLe, ih]

/-- `leToNat` inverts `natToLe` on values that fit in `k` bytes. -/
theorem leToNat_natToLe (k n : Nat) (h : n < 256 ^ k) :
    leToNat (natToLe k n) = n := by
  induction k generalizing n with
  | zero => simp [natToLe, leToNat]; omega
  | succ k ih =>
      have hdiv : n / 256 < 256 ^ k := by
        rw [Nat.div_lt_iff_lt_mul (by norm_num)]
        calc n < 256 ^ (k + 1) := h
        _ = 256 ^ k * 256 := by ring
      simp [natToLe, leToNat, ih _ hdiv]
      omega

/-- Claim C1: for every seed of length at least 32 bytes,
`generate_spending_key` succeeds with exactly 96 bytes, equal to the
concatenation of the three seed expansions of the first 32 seed bytes with
tags 0, 1, 2 (each the 64-byte `Zcash_ExpandSeed`-personalized BLAKE2b of
`key || tag` truncated to its first 32 bytes); and any two seeds agreeing
on their first 32 bytes produce identical output. -/
theorem generate_spending_key_spec {P : Type} (C : CryptoPrims P)
    (hB : ∀ len pers data, (C.blake2b len pers data).length = len)
    (seed : List Nat) (h : 32 ≤ seed.length) :
    ∃ k, generate_spending_key C seed = Except.ok k ∧
      k.length = 96 ∧
      k = (C.blake2b 64 persExpandSeed (seed.take 32 ++ [0x00])).take 32 ++
          (C.blake2b 64 persExpandSeed (seed.take 32 ++ [0x01])).take 32 ++
          (C.blake2b 64 persExpandSeed (seed.take 32 ++ [0x02])).take 32 ∧
      ∀ seed2, 32 ≤ seed2.length → seed2.take 32 = seed.take 32 →
        generate_spending_key C seed2 = generate_spending_key C seed := by
  refine ⟨_, ?_, ?_, rfl, ?_⟩
  · simp [generate_spending_key, Nat.not_lt.mpr h, prf_expand]
  · simp [List.length_take, hB]
  · intro seed2 h2 heq
    simp [generate_spending_key, Nat.not_lt.mpr h, Nat.not_lt.mpr h2, heq]

theorem generate_spending_key_spec_witness :
    ∃ k, generate_spending_key dummyPrims (List.replicate 32 0) =
      Except.ok k ∧ k.length = 96 := by
  obtain ⟨k, h1, h2, -⟩ :=
    generate_spending_key_spec dummyPrims
      (fun _ _ _ => by simp [dummyPrims]) (List.replicate 32 0) (by simp)
  exact ⟨k, h1, h2⟩

/-- Claim C9: `generate_spending_key` returns an error exactly when the
seed is shorter than 32 bytes (and then returns the length error with no
output value). -/
theorem generate_spending_key_err_iff {P : Type} (C : CryptoPrims P)
    (seed : List Nat) :
    ((∃ e, generate_spending_key C seed = Except.error e) ↔
      seed.length < 32) ∧
    (seed.length < 32 →
      generate_spending_key C seed =
        Except.error "Seed must be at least 32 bytes") := by
  unfold generate_spending_key
  by_cases h : seed.length < 32 <;> simp [h]

theorem generate_spending_key_err_iff_witness :
    generate_spending_key dummyPrims [0] =
      Except.error "Seed must be at least 32 bytes" :=
  (generate_spending_key_err_iff dummyPrims [0]).2 (by simp)

/-- Claim C3: the 32-byte little-endian scalar decoder accepts an encoding
iff its value is strictly below the jubjub group order; in particular it
rejects the encoding of the order with the invalid-scalar error and
accepts the encoding of order minus one. -/
theorem bytes_to_scalar_spec :
    (∀ bs : List Nat, bs.length = 32 →
      ((∃ v, bytes_to_scalar bs = Except.ok v) ↔ leToNat bs < jubjubR)) ∧
    bytes_to_scalar (natToLe 32 jubjubR) = Except.error "Invalid scalar" ∧
    bytes_to_scalar (natToLe 32 (jubjubR - 1)) =
      Except.ok (jubjubR - 1) := by
  have hlt : jubjubR < 256 ^ 32 := by norm_num [jubjubR]
  have htake : ∀ bs : List Nat, bs.length = 32 → bs.take 32 = bs := by
    intro bs h
    exact List.take_of_length_le (le_of_eq h)
  refine ⟨?_, ?_, ?_⟩
  · intro bs h
    unfold bytes_to_scalar
    rw [htake bs h]
    by_cases hv : leToNat bs < jubjubR <;> simp [hv]
  · unfold bytes_to_scalar
    rw [htake _ (natToLe_length 32 jubjubR), leToNat_natToLe 32 jubjubR hlt]
    simp
  · unfold bytes_to_scalar
    rw [htake _ (natToLe_length 32 (jubjubR - 1)),
      leToNat_natToLe 32 (jubjubR - 1) (by omega)]
    have : jubjubR - 1 < jubjubR := by norm_num [jubjubR]
    simp [this]

theorem bytes_to_scalar_spec_witness :
    (∃ v, bytes_to_scalar (List.replicate 32 0) = Except.ok v) ↔
      leToNat (List.replicate 32 0) < jubjubR :=
  bytes_to_scalar_spec.1 (List.replicate 32 0) (by simp)

/-- Claim C5: for 32-byte `ak` and `nk`, the incoming viewing key is the
32-byte `Zcashivk`-personalized BLAKE2s of `ak || nk` with byte 31 masked
by `0x07`, so its byte 31 has its top 5 bits equal to zero. -/
theorem crh_ivk_spec {P : Type} (C : CryptoPrims P)
    (hS : ∀ len pers data, (C.blake2s len pers data).length = len)
    (ak nk : List Nat) (hak : ak.length = 32) (hnk : nk.length = 32) :
    (crh_ivk C ak nk).length = 32 ∧
    crh_ivk C ak nk =
      (C.blake2s 32 persIvk (ak ++ nk)).set 31
        ((C.blake2s 32 persIvk (ak ++ nk)).getD 31 0 &&& 0x07) ∧
    ∃ b, (crh_ivk C ak nk)[31]? = some b ∧ b < 8 ∧ b >>> 3 = 0 := by
  refine ⟨by simp [crh_ivk, hS], rfl, ?_⟩
  have hb : (C.blake2s 32 persIvk (ak ++ nk)).getD 31 0 &&& 0x07 < 8 := by
    have := Nat.and_le_right
      (n := (C.blake2s 32 persIvk (ak ++ nk)).getD 31 0) (m := 0x07)
    omega
  refine ⟨_, ?_, hb, ?_⟩
  · unfold crh_ivk
    exact List.getElem?_set_eq_of_lt _ (by simp [hS])
  · rw [Nat.shiftRight_eq_div_pow]
    exact Nat.div_eq_of_lt (by norm_num at hb ⊢; omega)

theorem crh_ivk_spec_witness :
    (crh_ivk dummyPrims (List.replicate 32 0) (List.replicate 32 0)).length
      = 32 := by
  obtain ⟨h, -, -⟩ :=
    crh_ivk_spec dummyPrims (fun _ _ _ => by simp [dummyPrims])
      (List.replicate 32 0) (List.replicate 32 0) (by simp) (by simp)
  exact h

/-- Claim C2: for a private key that parses and a message whose length is
not 32, `sign_transparent message key = sign_transparent (sha256 message)
key`; a 32-byte message is signed directly as the digest, with no hash
applied by `sign_transparent`. -/
theorem sign_transparent_spec {P : Type} (C : CryptoPrims P)
    (message private_key sk : List Nat)
    (hkey : C.parseSigningKey private_key = Except.ok sk)
    (hsha : ∀ d, (C.sha256 d).length = 32)
    (hlen : message.length ≠ 32) :
    sign_transparent C message private_key =
      sign_transparent C (C.sha256 message) private_key ∧
    ∀ m : List Nat, m.length = 32 →
      sign_transparent C m private_key = Except.ok (C.ecdsaSign sk m) := by
  constructor
  · simp [sign_transparent, hkey, hlen, hsha]
  · intro m hm
    simp [sign_transparent, hkey, hm, Except.bind]

theorem sign_transparent_spec_witness :
    sign_transparent dummyPrims [1, 2, 3] [7] =
      sign_transparent dummyPrims (dummyPrims.sha256 [1, 2, 3]) [7] :=
  (sign_transparent_spec dummyPrims [1, 2, 3] [7] [7] rfl
    (fun _ => by simp [dummyPrims]) (by simp)).1

/-- Claim C4: `generate_transparent_address` never errors and returns the
base58 encoding of `0x1C 0xB8` followed by the 20-byte RIPEMD-160 of the
SHA-256 of the public key, a 22-byte payload with no checksum suffix. -/
theorem generate_transparent_address_spec {P : Type} (C : CryptoPrims P)
    (public_key : List Nat)
    (hr : ∀ d, (C.ripemd160 d).length = 20) :
    generate_transparent_address C public_key =
      Except.ok
        (base58Encode (0x1C :: 0xB8 :: C.ripemd160 (C.sha256 public_key))) ∧
    (0x1C :: 0xB8 :: C.ripemd160 (C.sha256 public_key)).length = 22 :=
  ⟨rfl, by simp [hr]⟩

theorem generate_transparent_address_spec_witness :
    generate_transparent_address dummyPrims [] =
      Except.ok
        (base58Encode
          (0x1C :: 0xB8 :: dummyPrims.ripemd160 (dummyPrims.sha256 []))) :=
  (generate_transparent_address_spec dummyPrims []
    (fun _ => by simp [dummyPrims])).1

/-- Claim C6: for every 32-bit index, the diversifier that
`derive_payment_address` builds is the 4 little-endian index bytes followed
by 7 zero bytes (11 bytes in all), and `find_valid_diversifier` is the
identity on every 11-byte diversifier, so the address computation proceeds
on exactly that diversifier. -/
theorem diversifier_spec (i : Nat) (hi : i < 2 ^ 32) :
    diversifierFromIndex i = u32le i ++ List.replicate 7 0 ∧
    (diversifierFromIndex i).length = 11 ∧
    (∀ d : List Nat, d.length = 11 → find_valid_diversifier d = Except.ok d) ∧
    ∀ {P : Type} (C : CryptoPrims P) (vk : List Nat), 128 ≤ vk.length →
      derive_payment_address C vk i =
        (diversifier_to_point C (u32le i ++ List.replicate 7 0)).bind
          fun g_d =>
            (bytes_to_scalar ((vk.drop 64).take 32)).bind fun ivk_scalar =>
              encode_payment_address C
                ((u32le i ++ List.replicate 7 0) ++
                  C.pointToBytes (C.pointMulScalar g_d ivk_scalar)) := by
  have hlen4 : (u32le i).length = 4 := rfl
  have hdiv : diversifierFromIndex i = u32le i ++ List.replicate 7 0 := by
    simp [diversifierFromIndex, setSlice, hlen4]
  refine ⟨hdiv, by simp [hdiv, hlen4], fun d _ => rfl, ?_⟩
  intro P C vk hvk
  simp [derive_payment_address, Nat.not_lt.mpr hvk, find_valid_diversifier,
    hdiv, Except.bind, List.append_assoc]

theorem diversifier_spec_witness :
    diversifierFromIndex 5 = u32le 5 ++ List.replicate 7 0 :=
  (diversifier_spec 5 (by norm_num)).1

/-- Claim C7: `compute_note_commitment` fails with the invalid-lengths
error unless the diversifier is 11 bytes, `pk_d` 32 bytes and `rcm` 32
bytes; on success it returns the `Zcash_PH`-personalized 32-byte hash of
the 83-byte concatenation `diversifier || pk_d || value-LE8 || rcm`. -/
theorem compute_note_commitment_spec {P : Type} (C : CryptoPrims P)
    (d pk_d : List Nat) (value : Nat) (rcm : List Nat) :
    (¬(d.length = 11 ∧ pk_d.length = 32 ∧ rcm.length = 32) →
      compute_note_commitment C d pk_d value rcm =
        Except.error "Invalid input lengths") ∧
    (d.length = 11 → pk_d.length = 32 → rcm.length = 32 →
      compute_note_commitment C d pk_d value rcm =
        Except.ok (pedersen_hash C persPH (d ++ pk_d ++ u64le value ++ rcm)) ∧
      (d ++ pk_d ++ u64le value ++ rcm).length = 83) := by
  constructor
  · intro hbad
    have : d.length ≠ 11 ∨ pk_d.length ≠ 32 ∨ rcm.length ≠ 32 := by
      tauto
    simp [compute_note_commitment, this]
  · intro h1 h2 h3
    refine ⟨by simp [compute_note_commitment, h1, h2, h3], ?_⟩
    simp [h1, h2, h3, u64le, natToLe_length]

theorem compute_note_commitment_spec_witness :
    compute_note_commitment dummyPrims (List.replicate 11 0)
        (List.replicate 32 0) 0 (List.replicate 32 0) =
      Except.ok
        (pedersen_hash dummyPrims persPH
          (List.replicate 11 0 ++ List.replicate 32 0 ++ u64le 0 ++
            List.replicate 32 0)) ∧
    compute_note_commitment dummyPrims [] (List.replicate 32 0) 0
        (List.replicate 32 0) =
      Except.error "Invalid input lengths" :=
  ⟨((compute_note_commitment_spec dummyPrims (List.replicate 11 0)
      (List.replicate 32 0) 0 (List.replicate 32 0)).2 (by simp) (by simp)
      (by simp)).1,
    (compute_note_commitment_spec dummyPrims [] (List.replicate 32 0) 0
      (List.replicate 32 0)).1 (by simp)⟩

/-- Claim C8 counterexample: the length checks are lower bounds, not exact:
a 97-byte spending key (length ≠ 96) is accepted by `derive_viewing_key`,
and a 129-byte viewing key (length ≠ 128) is accepted by
`derive_payment_address`. -/
theorem length_check_not_exact_ce :
    (List.replicate 97 (0 : Nat)).length ≠ 96 ∧
    (derive_viewing_key dummyPrims (List.replicate 97 0)).toOption =
      some (List.replicate 128 0) ∧
    (List.replicate 129 (0 : Nat)).length ≠ 128 ∧
    (derive_payment_address dummyPrims (List.replicate 129 0) 0).toOption =
      some "zs1dummy" := by
  refine ⟨by simp, by decide, by simp, by decide⟩

/-- Claim C8 (amended): `derive_viewing_key` returns its invalid-length
error exactly when the input is shorter than 96 bytes, and
`derive_payment_address` returns its invalid-length error exactly when the
viewing key is shorter than 128 bytes; longer inputs pass the length
guard. -/
theorem length_guard_spec {P : Type} (C : CryptoPrims P)
    (sk vk : List Nat) (i : Nat) :
    (derive_viewing_key C sk = Except.error "Invalid spending key length" ↔
      sk.length < 96) ∧
    (derive_payment_address C vk i =
        Except.error "Invalid viewing key length" ↔
      vk.length < 128) := by
  constructor
  · by_cases h : sk.length < 96
    · simp [derive_viewing_key, h]
    · refine iff_of_false ?_ h
      simp only [derive_viewing_key, if_neg h, bytes_to_scalar]
      split_ifs <;> simp [Except.bind]
  · by_cases h : vk.length < 128
    · simp [derive_payment_address, h]
    · refine iff_of_false ?_ h
      simp only [derive_payment_address, if_neg h, find_valid_diversifier,
        diversifier_to_point, bytes_to_scalar, encode_payment_address,
        Except.bind]
      cases C.pointFromBytes
          (C.blake2s 32 persGd (diversifierFromIndex i)) <;>
        split_ifs <;> simp [Except.bind]

/-- Claim C10: `derive_payment_address` depends only on the ivk slice
(bytes 64..96) of the viewing key: two viewing keys of length at least 128
that agree there give identical results, whatever their ak, nk, ovk
portions or any bytes past position 128. -/
theorem derive_payment_address_ivk_only {P : Type} (C : CryptoPrims P)
    (vk1 vk2 : List Nat) (i : Nat)
    (h1 : 128 ≤ vk1.length) (h2 : 128 ≤ vk2.length)
    (hivk : (vk1.drop 64).take 32 = (vk2.drop 64).take 32) :
    derive_payment_address C vk1 i = derive_payment_address C vk2 i := by
  simp [derive_payment_address, Nat.not_lt.mpr h1, Nat.not_lt.mpr h2, hivk]

theorem derive_payment_address_ivk_only_witness :
    derive_payment_address dummyPrims (List.replicate 128 0) 0 =
      derive_payment_address dummyPrims (List.replicate 128 0 ++ [5]) 0 :=
  derive_payment_address_ivk_only dummyPrims (List.replicate 128 0)
    (List.replicate 128 0 ++ [5]) 0 (by simp) (by simp) (by decide)
